import Mathlib

/-!
Verification of the backtest simulation core of the rust-trade repository.

Modelling conventions:
- rust_decimal Decimal values (cash, price, quantity, commission) are modelled
  as exact rationals.  The claims under study do not depend on the 28-digit
  rounding of Decimal division; note that Decimal division by a zero divisor
  panics in Rust, which the model tracks explicitly where it matters.
- f64 market prices are modelled by two fields of MarketDataPoint:
  priceF is the numeric value of the float (used by the moving-average
  strategy, which computes in f64), and priceDec is the result of
  Decimal::from_f64 on it, with none standing for a value the conversion
  rejects (NaN, infinity, out of range).
- HashMap from symbol to Position is modelled as an association list with
  unique keys; entry-or-insert followed by mutation is setPos, removal is
  removePos.
- DateTime values are modelled as integer timestamps; Duration as their
  difference.  EquityPoint stores the value directly (Rust stores a decimal
  string and parses it back, which round-trips).
-/

set_option maxHeartbeats 1000000

namespace RustTrade

/-- Order direction, from backtest/types.rs. -/
inductive OrderSide where
  | buy
  | sell
  deriving DecidableEq

/-- Order kind, from backtest/types.rs. -/
inductive OrderType where
  | market
  | limit (price : ℚ)
  deriving DecidableEq

/-- One historical tick, from data/market_data.rs (fields relevant to the
backtest core; priceF is the f64 price, priceDec its Decimal conversion). -/
structure MarketDataPoint where
  timestamp : Int
  symbol : String
  priceF : ℚ
  priceDec : Option ℚ
  deriving DecidableEq

/-- An order emitted by a strategy, from backtest/types.rs. -/
structure Order where
  symbol : String
  order_type : OrderType
  side : OrderSide
  quantity : ℚ
  timestamp : Int
  deriving DecidableEq

/-- A filled trade, from backtest/types.rs. -/
structure Trade where
  symbol : String
  side : OrderSide
  quantity : ℚ
  price : ℚ
  timestamp : Int
  commission : ℚ
  deriving DecidableEq

/-- An open position, from backtest/types.rs. -/
structure Position where
  symbol : String
  quantity : ℚ
  average_entry_price : ℚ
  deriving DecidableEq

/-- The portfolio aggregate, from backtest/types.rs.  The symbol-to-position
HashMap is an association list with unique keys. -/
structure Portfolio where
  cash : ℚ
  positions : List (String × Position)
  total_value : ℚ
  deriving DecidableEq

/-- One equity snapshot, from backtest/types.rs. -/
structure EquityPoint where
  timestamp : Int
  value : ℚ
  deriving DecidableEq

/-- Backtest configuration, from backtest/types.rs. -/
structure BacktestConfig where
  start_time : Int
  end_time : Int
  initial_capital : ℚ
  symbol : String
  commission_rate : ℚ
  deriving DecidableEq

/-- Lookup in the symbol-to-position map (HashMap::get). -/
def findPos : List (String × Position) → String → Option Position
  | [], _ => none
  | kv :: rest, sym => if kv.1 = sym then some kv.2 else findPos rest sym

/-- Entry-or-insert followed by in-place mutation: replace the binding for
sym if present, otherwise append a new binding (HashMap::entry().or_insert()
and subsequent writes through the entry). -/
def setPos (ps : List (String × Position)) (sym : String) (pos : Position) :
    List (String × Position) :=
  if (findPos ps sym).isSome then
    ps.map (fun kv => if kv.1 = sym then (sym, pos) else kv)
  else
    ps ++ [(sym, pos)]

/-- HashMap::remove. -/
def removePos (ps : List (String × Position)) (sym : String) :
    List (String × Position) :=
  ps.filter (fun kv => kv.1 != sym)

namespace BacktestEngine

/-- The cash-sufficiency check of the buy branch of
BacktestEngine::execute_order: cost (quantity times price plus commission)
must not exceed available cash. -/
def buyCashCheck (rate : ℚ) (order : Order) (price : ℚ) (pf : Portfolio) : Bool :=
  decide (order.quantity * price + rate * order.quantity * price ≤ pf.cash)

/-- The divisor of the weighted-average entry-price update in the buy branch
of BacktestEngine::execute_order: the held quantity (zero when no position
exists) plus the order quantity. -/
def buyNewQuantity (order : Order) (pf : Portfolio) : ℚ :=
  ((findPos pf.positions order.symbol).getD
    { symbol := order.symbol, quantity := 0, average_entry_price := 0 }).quantity
    + order.quantity

/-- BacktestEngine::execute_order from trading-core/src/backtest/engine.rs.
Returns the produced trade (none on rejection or on a price that
Decimal::from_f64 rejects) together with the resulting portfolio.  In Rust the
weighted-average update divides by buyNewQuantity, which panics when that
divisor is zero; the model continues with the total rational division. -/
def executeOrder (rate : ℚ) (order : Order) (data : MarketDataPoint)
    (pf : Portfolio) : Option Trade × Portfolio :=
  match data.priceDec with
  | none => (none, pf)
  | some price =>
    let commission := rate * order.quantity * price
    match order.side with
    | OrderSide.buy =>
      let cost := order.quantity * price + commission
      if buyCashCheck rate order price pf then
        let oldPos := (findPos pf.positions order.symbol).getD
          { symbol := order.symbol, quantity := 0, average_entry_price := 0 }
        let newQuantity := buyNewQuantity order pf
        let newAvg :=
          (oldPos.average_entry_price * oldPos.quantity + price * order.quantity)
            / newQuantity
        (some { symbol := order.symbol, side := OrderSide.buy,
                quantity := order.quantity, price := price,
                timestamp := data.timestamp, commission := commission },
         { pf with
            cash := pf.cash - cost,
            positions := setPos pf.positions order.symbol
              { symbol := order.symbol, quantity := newQuantity,
                average_entry_price := newAvg } })
      else
        (none, pf)
    | OrderSide.sell =>
      match findPos pf.positions order.symbol with
      | some pos =>
        if pos.quantity ≥ order.quantity then
          let newQty := pos.quantity - order.quantity
          (some { symbol := order.symbol, side := OrderSide.sell,
                  quantity := order.quantity, price := price,
                  timestamp := data.timestamp, commission := commission },
           { pf with
              cash := pf.cash + order.quantity * price - commission,
              positions :=
                if newQty = 0 then removePos pf.positions order.symbol
                else setPos pf.positions order.symbol
                  { pos with quantity := newQty } })
        else
          (none, pf)
      | none => (none, pf)

/-- BacktestEngine::update_portfolio_value: total value becomes cash plus the
sum over positions of quantity times the current tick price (a price the
conversion rejects is silently replaced by zero via unwrap_or_default). -/
def updatePortfolioValue (data : MarketDataPoint) (pf : Portfolio) : Portfolio :=
  { pf with
     total_value := pf.cash +
       (pf.positions.map (fun kv => kv.2.quantity * (data.priceDec.getD 0))).sum }

end BacktestEngine

namespace OrderExecutor

/-- OrderExecutor::execute_buy from src/backtest/engine/executor.rs.  Note the
price conversion uses unwrap_or_default, substituting zero for a price that
Decimal::from_f64 rejects. -/
def execute_buy (rate : ℚ) (order : Order) (data : MarketDataPoint)
    (pf : Portfolio) : Option Trade × Portfolio :=
  let price := data.priceDec.getD 0
  let total_cost := price * order.quantity
  let commission := total_cost * rate
  if pf.cash < total_cost + commission then
    (none, pf)
  else
    let oldPos := (findPos pf.positions order.symbol).getD
      { symbol := order.symbol, quantity := 0, average_entry_price := 0 }
    let new_total := oldPos.quantity * oldPos.average_entry_price
      + order.quantity * price
    let newQuantity := oldPos.quantity + order.quantity
    (some { symbol := order.symbol, side := OrderSide.buy,
            quantity := order.quantity, price := price,
            timestamp := order.timestamp, commission := commission },
     { pf with
        cash := pf.cash - (total_cost + commission),
        positions := setPos pf.positions order.symbol
          { symbol := order.symbol, quantity := newQuantity,
            average_entry_price := new_total / newQuantity } })

/-- OrderExecutor::execute_sell from src/backtest/engine/executor.rs. -/
def execute_sell (rate : ℚ) (order : Order) (data : MarketDataPoint)
    (pf : Portfolio) : Option Trade × Portfolio :=
  match findPos pf.positions order.symbol with
  | some pos =>
    if pos.quantity ≥ order.quantity then
      let price := data.priceDec.getD 0
      let total_value := price * order.quantity
      let commission := total_value * rate
      let newQty := pos.quantity - order.quantity
      (some { symbol := order.symbol, side := OrderSide.sell,
              quantity := order.quantity, price := price,
              timestamp := order.timestamp, commission := commission },
       { pf with
          cash := pf.cash + (total_value - commission),
          positions :=
            if newQty = 0 then removePos pf.positions order.symbol
            else setPos pf.positions order.symbol { pos with quantity := newQty } })
    else
      (none, pf)
  | none => (none, pf)

/-- OrderExecutor::execute_order from src/backtest/engine/executor.rs. -/
def execute_order (rate : ℚ) (order : Order) (data : MarketDataPoint)
    (pf : Portfolio) : Option Trade × Portfolio :=
  match order.side with
  | OrderSide.buy => execute_buy rate order data pf
  | OrderSide.sell => execute_sell rate order data pf

end OrderExecutor

/-- The condition under which the sell branch rejects an order: no position
is held for the symbol, or the held quantity is strictly smaller than the
order quantity. -/
def sellExceeds (order : Order) (pf : Portfolio) : Prop :=
  match findPos pf.positions order.symbol with
  | some pos => pos.quantity < order.quantity
  | none => True

/-- Lookup in the metric scanner's symbol-to-(quantity, average) map. -/
def findPM : List (String × (ℚ × ℚ)) → String → Option (ℚ × ℚ)
  | [], _ => none
  | kv :: rest, sym => if kv.1 = sym then some kv.2 else findPM rest sym

/-- Replace-or-append in the metric scanner's map (entry().or_insert() and
writes through the entry). -/
def setPM (m : List (String × (ℚ × ℚ))) (sym : String) (v : ℚ × ℚ) :
    List (String × (ℚ × ℚ)) :=
  if (findPM m sym).isSome then
    m.map (fun kv => if kv.1 = sym then (sym, v) else kv)
  else
    m ++ [(sym, v)]

namespace MetricsCalculator

/-- Accumulator of MetricsCalculator::analyze_trades: the winning list, the
losing list, and the incrementally tracked (quantity, average price) per
symbol. -/
structure AnalyzeState where
  profit : List Trade
  loss : List Trade
  position_map : List (String × (ℚ × ℚ))
  deriving DecidableEq

/-- One step of the scan in MetricsCalculator::analyze_trades.  A buy folds
its fill into the tracked weighted average and increases the tracked
quantity; a sell is classified against the tracked average (strictly above
is winning, otherwise losing) and leaves the map untouched; a sell of a
symbol with no map entry is skipped. -/
def analyzeStep (st : AnalyzeState) (t : Trade) : AnalyzeState :=
  match t.side with
  | OrderSide.buy =>
    let qa := (findPM st.position_map t.symbol).getD (0, 0)
    let avgNew := (qa.2 * qa.1 + t.price * t.quantity) / (qa.1 + t.quantity)
    { st with position_map := setPM st.position_map t.symbol (qa.1 + t.quantity, avgNew) }
  | OrderSide.sell =>
    match findPM st.position_map t.symbol with
    | some qa =>
      if t.price > qa.2 then { st with profit := st.profit ++ [t] }
      else { st with loss := st.loss ++ [t] }
    | none => st

/-- MetricsCalculator::analyze_trades from trading-core/src/backtest/metrics.rs. -/
def analyze_trades (trades : List Trade) : List Trade × List Trade :=
  let st := trades.foldl analyzeStep { profit := [], loss := [], position_map := [] }
  (st.profit, st.loss)

/-- MetricsCalculator::calculate_returns: consecutive-pair relative changes
of the equity values, zero where the previous value is zero. -/
def calculate_returns : List EquityPoint → List ℚ
  | p1 :: p2 :: rest =>
    (if p1.value = 0 then 0 else (p2.value - p1.value) / p1.value)
      :: calculate_returns (p2 :: rest)
  | _ => []

/-- Loop state of MetricsCalculator::calculate_drawdown. -/
structure DrawdownState where
  max_drawdown : ℚ
  max_drawdown_duration : Int
  peak_value : ℚ
  peak_time : Int
  deriving DecidableEq

/-- One step of MetricsCalculator::calculate_drawdown: a strictly higher
value advances the peak, otherwise (once a positive peak exists) the
drawdown fraction is compared against the maximum observed so far. -/
def drawdownStep (st : DrawdownState) (pt : EquityPoint) : DrawdownState :=
  if pt.value > st.peak_value then
    { st with peak_value := pt.value, peak_time := pt.timestamp }
  else if st.peak_value > 0 then
    let drawdown := (st.peak_value - pt.value) / st.peak_value
    if drawdown > st.max_drawdown then
      { st with max_drawdown := drawdown,
                max_drawdown_duration := pt.timestamp - st.peak_time }
    else st
  else st

/-- MetricsCalculator::calculate_drawdown.  The initial peak time is
Utc::now(), modelled by the parameter now. -/
def calculate_drawdown (now : Int) (pts : List EquityPoint) : ℚ × Int :=
  let st := pts.foldl drawdownStep
    { max_drawdown := 0, max_drawdown_duration := 0, peak_value := 0, peak_time := now }
  (st.max_drawdown, st.max_drawdown_duration)

/-- MetricsCalculator::calculate_total_return. -/
def calculate_total_return (pts : List EquityPoint) : ℚ :=
  if pts.length < 2 then 0
  else
    let initial_value := ((pts.head?).getD { timestamp := 0, value := 0 }).value
    let final_value := ((pts.getLast?).getD { timestamp := 0, value := 0 }).value
    if initial_value = 0 then 0
    else (final_value - initial_value) / initial_value * 100

/-- MetricsCalculator::calculate_win_rate. -/
def calculate_win_rate (winning total : Nat) : ℚ :=
  if total = 0 then 0 else (winning : ℚ) / (total : ℚ) * 100

/-- Decimal::MAX of rust_decimal, the sentinel for a loss-free profit factor. -/
def decimalMAX : ℚ := 79228162514264337593543950335

/-- MetricsCalculator::calculate_profit_factor. -/
def calculate_profit_factor (profit loss : List Trade) : ℚ :=
  let total_profit := (profit.map (fun t => (t.price - t.commission) * t.quantity)).sum
  let total_loss := (loss.map (fun t => (t.price + t.commission) * t.quantity)).sum
  if total_loss = 0 then (if total_profit = 0 then 1 else decimalMAX)
  else total_profit / total_loss

/-- MetricsCalculator::calculate_sharpe_ratio, with the f64 arithmetic
modelled exactly over the reals.  Note the volatility is the square root of
the raw sum of squared deviations from the mean (no division by the number
of returns), scaled by the square root of 252. -/
noncomputable def calculate_sharpe_ratio (risk_free_rate : ℝ) (returns : List ℝ) : ℝ :=
  if returns = [] then 0
  else
    let mean_return := returns.sum / returns.length
    let volatility :=
      Real.sqrt ((returns.map (fun r => (r - mean_return) ^ 2)).sum) * Real.sqrt 252
    if volatility = 0 then 0
    else (mean_return * 252 - risk_free_rate) / volatility

open Classical in
/-- MetricsCalculator::calculate_sortino_ratio, f64 arithmetic modelled
exactly over the reals. -/
noncomputable def calculate_sortino_ratio (risk_free_rate : ℝ) (returns : List ℝ) : ℝ :=
  if returns = [] then 0
  else
    let mean_return := returns.sum / returns.length
    let downside := (returns.filter (fun r => decide (r < 0))).map (fun r => r ^ 2)
    if downside = [] then 0
    else
      let downside_deviation := Real.sqrt (downside.sum / downside.length) * Real.sqrt 252
      if downside_deviation = 0 then 0
      else (mean_return * 252 - risk_free_rate) / downside_deviation

/-- MetricsCalculator::calculate_avg_profit. -/
def calculate_avg_profit (trades : List Trade) : ℚ :=
  if trades = [] then 0
  else (trades.map (fun t => t.price * t.quantity - t.commission)).sum / trades.length

/-- MetricsCalculator::calculate_total_volume. -/
def calculate_total_volume (trades : List Trade) : ℚ :=
  (trades.map (fun t => t.quantity * t.price)).sum

/-- The fixed risk-free rate set by MetricsCalculator::new (0.02). -/
noncomputable def risk_free_rate : ℝ := 1 / 50

/-- The metrics record assembled by MetricsCalculator::calculate (the fields
the source computes; the fields the source hard-codes to zero are omitted). -/
structure Metrics where
  total_return : ℚ
  total_trades : Nat
  winning_trades : Nat
  losing_trades : Nat
  win_rate : ℚ
  profit_factor : ℚ
  sharpe_ratio : ℝ
  sortino_ratio : ℝ
  max_drawdown : ℚ
  max_drawdown_duration : Int
  avg_profit_per_trade : ℚ
  total_commission : ℚ
  total_volume : ℚ

/-- MetricsCalculator::calculate from trading-core/src/backtest/metrics.rs. -/
noncomputable def calculate (now : Int) (trades : List Trade)
    (equity_points : List EquityPoint) : Metrics :=
  let pl := analyze_trades trades
  let returns := (calculate_returns equity_points).map (fun q => (q : ℝ))
  let dd := calculate_drawdown now equity_points
  { total_return := calculate_total_return equity_points
    total_trades := trades.length
    winning_trades := pl.1.length
    losing_trades := pl.2.length
    win_rate := calculate_win_rate pl.1.length trades.length
    profit_factor := calculate_profit_factor pl.1 pl.2
    sharpe_ratio := calculate_sharpe_ratio risk_free_rate returns
    sortino_ratio := calculate_sortino_ratio risk_free_rate returns
    max_drawdown := dd.1
    max_drawdown_duration := dd.2
    avg_profit_per_trade := calculate_avg_profit trades
    total_commission := (trades.map (fun t => t.commission)).sum
    total_volume := calculate_total_volume trades }

end MetricsCalculator

/-- A strategy, as the dyn Strategy trait object: a state type together with
the on_data method (metadata accessors omitted). -/
structure StrategyM (σ : Type) where
  on_data : σ → MarketDataPoint → Portfolio → List Order × σ

/-- BacktestResult from backtest/types.rs (the fields the engine computes;
the strategy metadata fields are omitted). -/
structure BacktestResult where
  metrics : MetricsCalculator.Metrics
  trades : List Trade
  equity_curve : List EquityPoint

/-- The mutable state of one BacktestEngine run, together with the strategy
state threaded through the tick loop. -/
structure EngineState (σ : Type) where
  portfolio : Portfolio
  trades : List Trade
  equity_points : List EquityPoint
  strat : σ

namespace BacktestEngine

/-- The inner order loop of BacktestEngine::run_strategy: each order of the
tick is handed to execute_order in sequence; a produced trade is appended,
a rejected order is dropped. -/
def applyOrders (rate : ℚ) (data : MarketDataPoint) :
    List Order → Portfolio → List Trade → Portfolio × List Trade
  | [], pf, acc => (pf, acc)
  | o :: rest, pf, acc =>
    match executeOrder rate o data pf with
    | (some t, pf2) => applyOrders rate data rest pf2 (acc ++ [t])
    | (none, pf2) => applyOrders rate data rest pf2 acc

/-- One iteration of the tick loop of BacktestEngine::run_strategy: invoke
the strategy, apply the returned orders in order, recompute the portfolio
value, append an equity point. -/
def processTick {σ : Type} (rate : ℚ) (S : StrategyM σ) (st : EngineState σ)
    (data : MarketDataPoint) : EngineState σ :=
  let os := S.on_data st.strat data st.portfolio
  let pt := applyOrders rate data os.1 st.portfolio []
  let pf2 := updatePortfolioValue data pt.1
  { portfolio := pf2,
    trades := st.trades ++ pt.2,
    equity_points := st.equity_points ++ [{ timestamp := data.timestamp, value := pf2.total_value }],
    strat := os.2 }

/-- BacktestEngine::run_strategy from trading-core/src/backtest/engine.rs.
The initial equity point is recorded at start_time, then the historical
series (modelled by the fetch outcome passed in) is replayed; a fetch
failure propagates as the error.  The now parameter stands for Utc::now()
inside the drawdown computation. -/
noncomputable def runStrategy {σ : Type} (now : Int) (config : BacktestConfig)
    (S : StrategyM σ) (s0 : σ) (fetched : Except String (List MarketDataPoint)) :
    Except String BacktestResult :=
  let st0 : EngineState σ :=
    { portfolio :=
        { cash := config.initial_capital, positions := [],
          total_value := config.initial_capital },
      trades := [],
      equity_points := [{ timestamp := config.start_time, value := config.initial_capital }],
      strat := s0 }
  match fetched with
  | Except.error e => Except.error e
  | Except.ok historical_data =>
    let stF := historical_data.foldl (processTick config.commission_rate S) st0
    Except.ok
      { metrics := MetricsCalculator.calculate now stF.trades stF.equity_points,
        trades := stF.trades,
        equity_curve := stF.equity_points }

end BacktestEngine

/-- A strategy that never emits orders (used to exercise the engine on
degenerate inputs). -/
def holdStrategy : StrategyM Unit :=
  { on_data := fun s _ _ => ([], s) }

namespace SmaCross

/-- The state of SimpleMovingAverageCrossStrategy from
trading-core/src/backtest/strategy/sma_cross.rs.  The two VecDeque price
queues are lists with push_back at the end and pop_front at the head. -/
structure SmaState where
  symbol : String
  short_period : Nat
  long_period : Nat
  short_ma : List ℚ
  long_ma : List ℚ
  position_size : ℚ
  last_signal : Option Bool
  deriving DecidableEq

/-- SimpleMovingAverageCrossStrategy::calculate_ma: push the price into both
queues, evict the oldest element of a queue that exceeds its period, and
once the short queue holds exactly short_period prices return both averages
(each the sum of its queue divided by its length). -/
def calculate_ma (st : SmaState) (price : ℚ) : Option (ℚ × ℚ) × SmaState :=
  let pushedS := st.short_ma ++ [price]
  let shortQ := if st.short_period < pushedS.length then pushedS.tail else pushedS
  let pushedL := st.long_ma ++ [price]
  let longQ := if st.long_period < pushedL.length then pushedL.tail else pushedL
  let st2 := { st with short_ma := shortQ, long_ma := longQ }
  if shortQ.length = st.short_period then
    (some (shortQ.sum / (shortQ.length : ℚ), longQ.sum / (longQ.length : ℚ)), st2)
  else
    (none, st2)

/-- SimpleMovingAverageCrossStrategy::on_data.  The moving averages are
computed in f64 (modelled exactly by priceF), the order quantity in Decimal
from the converted price (zero substituted when the conversion fails).  An
order is produced only when the current signal differs from the remembered
one (or none is remembered) and the position check passes. -/
def on_data (st : SmaState) (data : MarketDataPoint) (pf : Portfolio) :
    List Order × SmaState :=
  match calculate_ma st data.priceF with
  | (none, st2) => ([], st2)
  | (some ma, st2) =>
    let price_decimal := data.priceDec.getD 0
    let quantity := if 0 < price_decimal then st.position_size / price_decimal else 0
    let current_signal : Bool := decide (ma.2 < ma.1)
    let signal_changed : Bool :=
      match st.last_signal with
      | none => true
      | some last => last != current_signal
    let orders : List Order :=
      if current_signal && signal_changed then
        if (findPos pf.positions st.symbol).isSome then []
        else
          [{ symbol := st.symbol, order_type := OrderType.market,
             side := OrderSide.buy, quantity := quantity,
             timestamp := data.timestamp }]
      else if !current_signal && signal_changed then
        match findPos pf.positions st.symbol with
        | some pos =>
          [{ symbol := st.symbol, order_type := OrderType.market,
             side := OrderSide.sell, quantity := pos.quantity,
             timestamp := data.timestamp }]
        | none => []
      else []
    (orders, { st2 with last_signal := some current_signal })

end SmaCross

/-- Repeated application of BacktestEngine::execute_order to a sequence of
orders, each paired with the tick it executes against (the portfolio of a
run is mutated in place; here it is threaded). -/
def applySeq (rate : ℚ) : List (Order × MarketDataPoint) → Portfolio → Portfolio
  | [], pf => pf
  | od :: rest, pf => applySeq rate rest (BacktestEngine.executeOrder rate od.1 od.2 pf).2

/-- Modelled from the spec: the current price of a symbol at a tick is the
tick's (converted) price for the tick's own symbol and is undefined for any
other symbol. -/
def currentPriceAt (data : MarketDataPoint) (sym : String) : Option ℚ :=
  if sym = data.symbol then data.priceDec else none

/-- Removal from the metric scanner's map. -/
def removePM (m : List (String × (ℚ × ℚ))) (sym : String) :
    List (String × (ℚ × ℚ)) :=
  m.filter (fun kv => kv.1 != sym)

/-- Modelled from the spec: position tracking that replays a trade the way
the order executor updates the position it fills — a buy folds into the
weighted average and adds its quantity, a sell subtracts its quantity
leaving the average unchanged and removes the position when the quantity
returns exactly to zero. -/
def specPosStep (m : List (String × (ℚ × ℚ))) (t : Trade) :
    List (String × (ℚ × ℚ)) :=
  match t.side with
  | OrderSide.buy =>
    let qa := (findPM m t.symbol).getD (0, 0)
    setPM m t.symbol
      (qa.1 + t.quantity, (qa.2 * qa.1 + t.price * t.quantity) / (qa.1 + t.quantity))
  | OrderSide.sell =>
    match findPM m t.symbol with
    | some qa =>
      if qa.1 - t.quantity = 0 then removePM m t.symbol
      else setPM m t.symbol (qa.1 - t.quantity, qa.2)
    | none => m

/-- Modelled from the spec: classify each sell against the weighted-average
entry price the position holds at the moment the sell executes, the average
obtained by replaying all preceding trades in order, buys and sells alike;
a sell strictly above that average is winning, otherwise losing; buys are
never classified. -/
def specClassifyGo (m : List (String × (ℚ × ℚ))) (profit loss : List Trade) :
    List Trade → List Trade × List Trade
  | [] => (profit, loss)
  | t :: rest =>
    match t.side with
    | OrderSide.buy => specClassifyGo (specPosStep m t) profit loss rest
    | OrderSide.sell =>
      match findPM m t.symbol with
      | some qa =>
        if t.price > qa.2 then
          specClassifyGo (specPosStep m t) (profit ++ [t]) loss rest
        else
          specClassifyGo (specPosStep m t) profit (loss ++ [t]) rest
      | none => specClassifyGo m profit loss rest

/-- Modelled from the spec: the temporally consistent trade classification
(average at time of sale). -/
def specClassify (trades : List Trade) : List Trade × List Trade :=
  specClassifyGo [] [] [] trades

/-- Whether a trade list contains a buy of the given symbol. -/
def hasBuy (sym : String) (ts : List Trade) : Bool :=
  ts.any (fun t => t.side == OrderSide.buy && t.symbol == sym)

/-- Total quantity bought of a symbol across a trade list. -/
def buyQtySum (sym : String) (ts : List Trade) : ℚ :=
  ((ts.filter (fun t => t.side == OrderSide.buy && t.symbol == sym)).map
    (fun t => t.quantity)).sum

/-- Total price-times-quantity bought of a symbol across a trade list. -/
def buyPQSum (sym : String) (ts : List Trade) : ℚ :=
  ((ts.filter (fun t => t.side == OrderSide.buy && t.symbol == sym)).map
    (fun t => t.price * t.quantity)).sum

/-- The quantity-weighted average price of all buys of a symbol in a trade
list (sells ignored entirely). -/
def buyWavg (sym : String) (ts : List Trade) : ℚ :=
  buyPQSum sym ts / buyQtySum sym ts

/-- Classification over the cumulative average of all preceding buys: the
recursion carries the prefix of trades already scanned and recomputes the
closed-form buy average of that prefix at every sell. -/
def cumClassifyGo (sym : String) (done : List Trade) (profit loss : List Trade) :
    List Trade → List Trade × List Trade
  | [] => (profit, loss)
  | t :: rest =>
    match t.side with
    | OrderSide.buy => cumClassifyGo sym (done ++ [t]) profit loss rest
    | OrderSide.sell =>
      if hasBuy sym done then
        if t.price > buyWavg sym done then
          cumClassifyGo sym (done ++ [t]) (profit ++ [t]) loss rest
        else
          cumClassifyGo sym (done ++ [t]) profit (loss ++ [t]) rest
      else
        cumClassifyGo sym (done ++ [t]) profit loss rest

/-- Classification of a single-symbol trade list against the cumulative
weighted average of all preceding buys. -/
def cumClassify (sym : String) (trades : List Trade) : List Trade × List Trade :=
  cumClassifyGo sym [] [] [] trades

/-- The running peak of an equity curve up to and including index i. -/
def prefixPeak (pts : List EquityPoint) (i : Nat) : ℚ :=
  ((pts.take (i + 1)).map (fun p => p.value)).foldl max 0

/-- Modelled from the spec: the maximum over the curve of the drawdown
fraction (running peak minus value, over the running peak) at each point. -/
def specMaxDD (pts : List EquityPoint) : ℚ :=
  ((List.range pts.length).map
    (fun i =>
      (prefixPeak pts i - (pts.getD i { timestamp := 0, value := 0 }).value)
        / prefixPeak pts i)).foldl max 0

/-- The largest value of an equity curve (zero for the empty curve). -/
def peakValue (pts : List EquityPoint) : ℚ :=
  (pts.map (fun p => p.value)).foldl max 0

/-- Modelled from the spec: the standard deviation of a return series (the
square root of the mean of the squared deviations from the mean). -/
noncomputable def stdevSpec (returns : List ℝ) : ℝ :=
  Real.sqrt
    (((returns.map (fun r => (r - returns.sum / returns.length) ^ 2)).sum)
      / returns.length)

/-- Modelled from the spec: the claimed Sharpe ratio, mean return annualized
by 252 less the risk-free rate, over the standard deviation of the returns
scaled by the square root of 252; zero for an empty series or zero
volatility. -/
noncomputable def sharpeSpec (rf : ℝ) (returns : List ℝ) : ℝ :=
  if returns = [] then 0
  else
    let mean := returns.sum / returns.length
    let denom := stdevSpec returns * Real.sqrt 252
    if denom = 0 then 0 else (mean * 252 - rf) / denom

section ConcreteInputs

/-- A concrete tick at price 100 for symbol X. -/
def tickX100 : MarketDataPoint :=
  { timestamp := 0, symbol := "X", priceF := 100, priceDec := some 100 }

/-- A concrete tick whose price Decimal::from_f64 rejects. -/
def tickXBad : MarketDataPoint :=
  { timestamp := 5, symbol := "X", priceF := 0, priceDec := none }

/-- A concrete buy order of quantity 10 for symbol X. -/
def buyX10 : Order :=
  { symbol := "X", order_type := OrderType.market, side := OrderSide.buy,
    quantity := 10, timestamp := 0 }

/-- A concrete sell order of quantity 5 for symbol X. -/
def sellX5 : Order :=
  { symbol := "X", order_type := OrderType.market, side := OrderSide.sell,
    quantity := 5, timestamp := 1 }

/-- A concrete starting portfolio with cash 10000 and no positions. -/
def pfStart : Portfolio :=
  { cash := 10000, positions := [], total_value := 10000 }

/-- Counterexample trade list for the trade classification: buy 1 at 100,
sell 1 at 110 (closing the position), buy 1 at 300, sell 1 at 250. -/
def cxBuy100 : Trade :=
  { symbol := "X", side := OrderSide.buy, quantity := 1, price := 100,
    timestamp := 0, commission := 0 }

/-- Second trade of the classification counterexample. -/
def cxSell110 : Trade :=
  { symbol := "X", side := OrderSide.sell, quantity := 1, price := 110,
    timestamp := 1, commission := 0 }

/-- Third trade of the classification counterexample. -/
def cxBuy300 : Trade :=
  { symbol := "X", side := OrderSide.buy, quantity := 1, price := 300,
    timestamp := 2, commission := 0 }

/-- Fourth trade of the classification counterexample: it sells at 250 while
the position average at that moment is 300 (losing), but the scanner's
never-decremented average is 200, so the code classifies it winning. -/
def cxSell250 : Trade :=
  { symbol := "X", side := OrderSide.sell, quantity := 1, price := 250,
    timestamp := 3, commission := 0 }

/-- The classification counterexample list. -/
def cxTrades : List Trade := [cxBuy100, cxSell110, cxBuy300, cxSell250]

/-- The spec's drawdown example curve 1000, 1200, 900, 1100. -/
def ddCurve : List EquityPoint :=
  [ { timestamp := 0, value := 1000 }, { timestamp := 1, value := 1200 },
    { timestamp := 2, value := 900 }, { timestamp := 3, value := 1100 } ]

/-- A concrete configuration for engine-level runs. -/
def cfgX : BacktestConfig :=
  { start_time := 0, end_time := 100, initial_capital := 10000,
    symbol := "X", commission_rate := 0 }

/-- A concrete portfolio whose cash cannot cover buyX10 at price 100. -/
def pfPoor : Portfolio :=
  { cash := 5, positions := [], total_value := 5 }

/-- A concrete portfolio holding two units of X bought at 50. -/
def pfHold : Portfolio :=
  { cash := 100,
    positions := [("X", { symbol := "X", quantity := 2, average_entry_price := 50 })],
    total_value := 0 }

/-- A concrete engine state holding two units of X. -/
def stX : EngineState Unit :=
  { portfolio := pfHold, trades := [], equity_points := [], strat := () }

/-- A concrete moving-average state one price short of a full short window. -/
def smaStX : SmaCross.SmaState :=
  { symbol := "X", short_period := 1, long_period := 2, short_ma := [],
    long_ma := [100], position_size := 1000, last_signal := none }

/-- A concrete buy order of quantity zero for symbol X. -/
def buyX0 : Order :=
  { symbol := "X", order_type := OrderType.market, side := OrderSide.buy,
    quantity := 0, timestamp := 0 }

/-- A concrete tick at price 104 for symbol X. -/
def tickX104 : MarketDataPoint :=
  { timestamp := 9, symbol := "X", priceF := 104, priceDec := some 104 }

end ConcreteInputs

/-! Helper lemmas about the association-list maps and the executor. -/

theorem findPos_mem {ps : List (String × Position)} {sym : String} {pos : Position}
    (h : findPos ps sym = some pos) : (sym, pos) ∈ ps := by
  induction ps with
  | nil => simp [findPos] at h
  | cons kv rest ih =>
    by_cases hk : kv.1 = sym
    · simp only [findPos, hk, if_pos] at h
      cases h
      have hkv : kv = (sym, kv.2) := by
        cases kv
        simp_all
      rw [← hkv]
      exact List.mem_cons_self _ _
    · simp only [findPos, hk, if_neg, not_false_iff] at h
      exact List.mem_cons_of_mem _ (ih h)

theorem setPos_mem {ps : List (String × Position)} {sym : String} {pos : Position}
    {kv : String × Position} (h : kv ∈ setPos ps sym pos) :
    kv.2 = pos ∨ kv ∈ ps := by
  unfold setPos at h
  split at h
  · rcases List.mem_map.mp h with ⟨kv₀, hkv₀, heq⟩
    by_cases hk : kv₀.1 = sym
    · simp only [hk, if_pos] at heq
      left
      rw [← heq]
    · simp only [hk, if_neg, not_false_iff] at heq
      right
      rw [← heq]
      exact hkv₀
  · rcases List.mem_append.mp h with h₁ | h₁
    · right
      exact h₁
    · left
      simp only [List.mem_singleton] at h₁
      rw [h₁]

theorem removePos_mem {ps : List (String × Position)} {sym : String}
    {kv : String × Position} (h : kv ∈ removePos ps sym) : kv ∈ ps :=
  List.mem_of_mem_filter h

/-- A sell that exceeds the held position (or has no position) is rejected by
BacktestEngine::execute_order with no portfolio change. -/
theorem executeOrder_sell_reject (rate : ℚ) (o : Order) (d : MarketDataPoint)
    (pf : Portfolio) (hs : o.side = OrderSide.sell) (hx : sellExceeds o pf) :
    BacktestEngine.executeOrder rate o d pf = (none, pf) := by
  unfold BacktestEngine.executeOrder
  cases hd : d.priceDec with
  | none => rfl
  | some p =>
    rw [hs]
    simp only
    cases hf : findPos pf.positions o.symbol with
    | none => simp
    | some pos =>
      simp only [sellExceeds, hf] at hx
      simp [not_le.mpr hx]

/-- A buy whose cost (with commission) exceeds available cash is rejected by
BacktestEngine::execute_order with no portfolio change. -/
theorem executeOrder_buy_reject (rate : ℚ) (o : Order) (d : MarketDataPoint)
    (pf : Portfolio) (p : ℚ) (hs : o.side = OrderSide.buy) (hd : d.priceDec = some p)
    (hx : pf.cash < o.quantity * p + rate * o.quantity * p) :
    BacktestEngine.executeOrder rate o d pf = (none, pf) := by
  unfold BacktestEngine.executeOrder
  rw [hd, hs]
  simp only [BacktestEngine.buyCashCheck]
  simp [not_le.mpr hx]

/-- One application of BacktestEngine::execute_order preserves nonnegative
cash and nonnegative position quantities, for a commission rate between 0
and 1, a positive order quantity, and a nonnegative converted price. -/
theorem executeOrder_nonneg (rate : ℚ) (o : Order) (d : MarketDataPoint) (pf : Portfolio)
    (hr0 : 0 ≤ rate) (hr1 : rate ≤ 1) (hq : 0 < o.quantity)
    (hp : ∀ p, d.priceDec = some p → 0 ≤ p)
    (hc : 0 ≤ pf.cash) (hpos : ∀ kv ∈ pf.positions, 0 ≤ kv.2.quantity) :
    0 ≤ (BacktestEngine.executeOrder rate o d pf).2.cash ∧
    ∀ kv ∈ (BacktestEngine.executeOrder rate o d pf).2.positions, 0 ≤ kv.2.quantity := by
  unfold BacktestEngine.executeOrder
  cases hd : d.priceDec with
  | none => exact ⟨hc, hpos⟩
  | some p =>
    have hp' := hp p hd
    cases hs : o.side with
    | buy =>
      by_cases hck : BacktestEngine.buyCashCheck rate o p pf = true
      · simp only [hck, if_true]
        constructor
        · have hle := of_decide_eq_true hck
          simpa using sub_nonneg.mpr hle
        · intro kv hkv
          rcases setPos_mem hkv with h₁ | h₁
          · rw [h₁]
            show 0 ≤ BacktestEngine.buyNewQuantity o pf
            unfold BacktestEngine.buyNewQuantity
            cases hf : findPos pf.positions o.symbol with
            | none => simpa using hq.le
            | some pos =>
              have h0 := hpos (o.symbol, pos) (findPos_mem hf)
              simp only [Option.getD_some]
              positivity
          · exact hpos kv h₁
      · simp only [hck]
        simp only [Bool.false_eq_true, if_false]
        exact ⟨hc, hpos⟩
    | sell =>
      cases hf : findPos pf.positions o.symbol with
      | none => exact ⟨hc, hpos⟩
      | some pos =>
        by_cases hge : pos.quantity ≥ o.quantity
        · simp only [hge, if_true, ge_iff_le, if_pos]
          constructor
          · have h1 : 0 ≤ o.quantity * p := mul_nonneg hq.le hp'
            have h2 : rate * o.quantity * p ≤ 1 * (o.quantity * p) := by
              rw [mul_assoc]
              exact mul_le_mul_of_nonneg_right hr1 h1
            linarith
          · intro kv hkv
            by_cases hz : pos.quantity - o.quantity = 0
            · rw [if_pos hz] at hkv
              exact hpos kv (removePos_mem hkv)
            · rw [if_neg hz] at hkv
              rcases setPos_mem hkv with h₁ | h₁
              · rw [h₁]
                show 0 ≤ pos.quantity - o.quantity
                linarith [hge]
              · exact hpos kv h₁
        · simp only [ge_iff_le, not_le] at hge
          simp only [not_le.mpr hge, ge_iff_le, if_neg]
          exact ⟨hc, hpos⟩

/-- Invariant preservation over a whole order sequence. -/
theorem applySeq_nonneg (rate : ℚ) (seq : List (Order × MarketDataPoint))
    (pf : Portfolio) (hr0 : 0 ≤ rate) (hr1 : rate ≤ 1)
    (hseq : ∀ od ∈ seq, 0 < od.1.quantity ∧ ∀ p, od.2.priceDec = some p → 0 ≤ p)
    (hc : 0 ≤ pf.cash) (hpos : ∀ kv ∈ pf.positions, 0 ≤ kv.2.quantity) :
    0 ≤ (applySeq rate seq pf).cash ∧
    ∀ kv ∈ (applySeq rate seq pf).positions, 0 ≤ kv.2.quantity := by
  induction seq generalizing pf with
  | nil => exact ⟨hc, hpos⟩
  | cons od rest ih =>
    have hod := hseq od (List.mem_cons_self _ _)
    have hstep := executeOrder_nonneg rate od.1 od.2 pf hr0 hr1 hod.1 hod.2 hc hpos
    exact ih _ (fun x hx => hseq x (List.mem_cons_of_mem _ hx)) hstep.1 hstep.2

/-- C1: from an initial portfolio with nonnegative cash and no positions,
every sequence of orders applied through the order executor (positive order
quantities, nonnegative converted tick prices, commission rate between 0 and
1) leaves cash nonnegative and every position quantity nonnegative after
every prefix of the sequence, and a sell order whose quantity exceeds the
held position is rejected in full — no trade, no portfolio change, never a
partial fill. -/
theorem C1_portfolio_invariants (rate : ℚ) (seq : List (Order × MarketDataPoint))
    (pf0 : Portfolio) (hr0 : 0 ≤ rate) (hr1 : rate ≤ 1)
    (hcash : 0 ≤ pf0.cash) (hpos : pf0.positions = [])
    (hseq : ∀ od ∈ seq, 0 < od.1.quantity ∧ ∀ p, od.2.priceDec = some p → 0 ≤ p) :
    (∀ pre suf, seq = pre ++ suf →
      0 ≤ (applySeq rate pre pf0).cash ∧
      ∀ kv ∈ (applySeq rate pre pf0).positions, 0 ≤ kv.2.quantity) ∧
    (∀ (o : Order) (d : MarketDataPoint) (pf : Portfolio),
      o.side = OrderSide.sell → sellExceeds o pf →
      BacktestEngine.executeOrder rate o d pf = (none, pf)) := by
  constructor
  · intro pre suf hsplit
    refine applySeq_nonneg rate pre pf0 hr0 hr1 ?_ hcash ?_
    · intro od hod
      exact hseq od (by rw [hsplit]; exact List.mem_append_left _ hod)
    · intro kv hkv
      rw [hpos] at hkv
      simp at hkv
  · intro o d pf hs hx
    exact executeOrder_sell_reject rate o d pf hs hx

/-- C1 witness: a concrete two-order run from cash 10000 at commission rate
one percent keeps cash nonnegative. -/
theorem C1_portfolio_invariants_witness :
    0 ≤ (applySeq (1/100) [(buyX10, tickX100), (sellX5, tickX100)] pfStart).cash :=
  ((C1_portfolio_invariants (1/100) [(buyX10, tickX100), (sellX5, tickX100)] pfStart
    (by norm_num) (by norm_num) (by norm_num [pfStart]) (by rfl)
    (by decide)).1
    [(buyX10, tickX100), (sellX5, tickX100)] [] (by simp)).1

/-- C2: every rejected order — a buy whose cost plus commission exceeds
available cash, or a sell whose quantity exceeds the held position
(including when no position exists) — returns no trade and leaves the
portfolio (cash, positions, total value) exactly identical, in both the
engine's execute_order and the OrderExecutor draft. -/
theorem C2_rejection_atomicity (rate : ℚ) (o : Order) (d : MarketDataPoint)
    (pf : Portfolio) :
    (∀ p, d.priceDec = some p → o.side = OrderSide.buy →
      pf.cash < o.quantity * p + rate * o.quantity * p →
      BacktestEngine.executeOrder rate o d pf = (none, pf)) ∧
    (o.side = OrderSide.sell → sellExceeds o pf →
      BacktestEngine.executeOrder rate o d pf = (none, pf)) ∧
    (o.side = OrderSide.buy →
      pf.cash < d.priceDec.getD 0 * o.quantity + d.priceDec.getD 0 * o.quantity * rate →
      OrderExecutor.execute_order rate o d pf = (none, pf)) ∧
    (o.side = OrderSide.sell → sellExceeds o pf →
      OrderExecutor.execute_order rate o d pf = (none, pf)) := by
  refine ⟨?_, ?_, ?_, ?_⟩
  · intro p hd hs hx
    exact executeOrder_buy_reject rate o d pf p hs hd hx
  · intro hs hx
    exact executeOrder_sell_reject rate o d pf hs hx
  · intro hs hx
    unfold OrderExecutor.execute_order
    rw [hs]
    unfold OrderExecutor.execute_buy
    rw [if_pos hx]
  · intro hs hx
    unfold OrderExecutor.execute_order
    rw [hs]
    unfold OrderExecutor.execute_sell
    cases hf : findPos pf.positions o.symbol with
    | none => simp
    | some pos =>
      simp only [sellExceeds, hf] at hx
      simp [not_le.mpr hx]

/-- C2 witness: a concrete underfunded buy is rejected with the portfolio
unchanged. -/
theorem C2_rejection_atomicity_witness :
    BacktestEngine.executeOrder (1/100) buyX10 tickX100 pfPoor = (none, pfPoor) :=
  (C2_rejection_atomicity (1/100) buyX10 tickX100 pfPoor).1 100 rfl rfl (by norm_num [pfPoor, buyX10])

/-- C3: immediately after a processed tick, the portfolio's total value
equals cash plus, for every open position, that position's quantity times
the current price of that position's own symbol at the tick (the hypothesis
states that this current price is defined for every open position, which
pins every position to the tick's symbol and the tick's price to a value
the decimal conversion accepts). -/
theorem C3_total_value {σ : Type} (rate : ℚ) (S : StrategyM σ) (st : EngineState σ)
    (d : MarketDataPoint) (priceOf : String → ℚ)
    (hpr : ∀ kv ∈ (BacktestEngine.processTick rate S st d).portfolio.positions,
      currentPriceAt d kv.2.symbol = some (priceOf kv.2.symbol)) :
    (BacktestEngine.processTick rate S st d).portfolio.total_value =
      (BacktestEngine.processTick rate S st d).portfolio.cash +
      ((BacktestEngine.processTick rate S st d).portfolio.positions.map
        (fun kv => kv.2.quantity * priceOf kv.2.symbol)).sum := by
  have hmap :
      ∀ ps : List (String × Position),
        (∀ kv ∈ ps, currentPriceAt d kv.2.symbol = some (priceOf kv.2.symbol)) →
        (ps.map (fun kv => kv.2.quantity * d.priceDec.getD 0)).sum =
          (ps.map (fun kv => kv.2.quantity * priceOf kv.2.symbol)).sum := by
    intro ps hps
    congr 1
    refine List.map_congr_left ?_
    intro kv hkv
    have h := hps kv hkv
    unfold currentPriceAt at h
    by_cases hsym : kv.2.symbol = d.symbol
    · rw [if_pos hsym] at h
      rw [h]
      rfl
    · rw [if_neg hsym] at h
      exact absurd h (by simp)
  show (BacktestEngine.updatePortfolioValue d _).total_value = _
  unfold BacktestEngine.updatePortfolioValue
  simp only
  exact congrArg _ (hmap _ hpr)

/-- C3 witness: a concrete tick over a portfolio holding two units of X at
current price 100 yields total value cash plus two hundred. -/
theorem C3_total_value_witness :
    (BacktestEngine.processTick 0 holdStrategy stX tickX100).portfolio.total_value =
      (BacktestEngine.processTick 0 holdStrategy stX tickX100).portfolio.cash +
      ((BacktestEngine.processTick 0 holdStrategy stX tickX100).portfolio.positions.map
        (fun kv => kv.2.quantity * (fun _ => (100 : ℚ)) kv.2.symbol)).sum :=
  C3_total_value 0 holdStrategy stX tickX100 (fun _ => 100) (by decide)

/-- C4 counterexample: with an empty fetched series the run returns a
successful result — zero trades, only the initial equity point — rather
than reporting a hard error, so the empty-series outcome is exactly a
successful zero-trade result, not distinct from it. -/
theorem C4_empty_series_counterexample :
    (BacktestEngine.runStrategy 0 cfgX holdStrategy () (Except.ok [])).toOption.map
      (fun r => (r.trades, r.equity_curve)) =
      some ([], [{ timestamp := 0, value := 10000 }]) := rfl

/-- C4 amended: the engine performs no empty-series check — a run over an
empty historical series completes successfully with zero trades and only
the initial equity point, indistinguishable in kind from a genuine
zero-trade run; only a failed fetch is reported to the caller as a hard
error. -/
theorem C4_empty_series_amended {σ : Type} (now : Int) (cfg : BacktestConfig)
    (S : StrategyM σ) (s0 : σ) (e : String) :
    (BacktestEngine.runStrategy now cfg S s0 (Except.ok [])).toOption.map
      (fun r => (r.trades, r.equity_curve)) =
      some ([], [{ timestamp := cfg.start_time, value := cfg.initial_capital }]) ∧
    BacktestEngine.runStrategy now cfg S s0 (Except.error e) = Except.error e :=
  ⟨rfl, rfl⟩

/-- C5 counterexample: the OrderExecutor draft silently substitutes zero for
a price the decimal conversion rejects and executes the buy as a trade at
price zero instead of aborting that order. -/
theorem C5_price_coerced_counterexample :
    (OrderExecutor.execute_order (1/100) buyX10 tickXBad pfStart).1.map Trade.price =
      some 0 := by
  norm_num [OrderExecutor.execute_order, OrderExecutor.execute_buy, buyX10, tickXBad,
    pfStart]

/-- C5 amended: in BacktestEngine::execute_order a tick price the decimal
conversion rejects aborts that order as rejected — no trade, no portfolio
change — and the run as a whole continues (a run never fails after a
successful fetch); the OrderExecutor draft instead silently coerces such a
price to zero and can execute the order at price zero. -/
theorem C5_conversion_aborts_order_amended {σ : Type} (rate : ℚ) (o : Order)
    (d : MarketDataPoint) (pf : Portfolio) (now : Int) (cfg : BacktestConfig)
    (S : StrategyM σ) (s0 : σ) (data : List MarketDataPoint)
    (hd : d.priceDec = none) :
    BacktestEngine.executeOrder rate o d pf = (none, pf) ∧
    (BacktestEngine.runStrategy now cfg S s0 (Except.ok data)).isOk = true := by
  constructor
  · unfold BacktestEngine.executeOrder
    rw [hd]
  · rfl

/-- C5 witness: the engine's executor concretely drops an order whose tick
price the conversion rejects, leaving the portfolio unchanged. -/
theorem C5_conversion_aborts_order_amended_witness :
    BacktestEngine.executeOrder (1/100) buyX10 tickXBad pfStart = (none, pfStart) :=
  (C5_conversion_aborts_order_amended (1/100) buyX10 tickXBad pfStart 0 cfgX
    holdStrategy () [] rfl).1

/-! Lemmas about the cumulative buy sums used by the trade classification. -/

theorem hasBuy_append (sym : String) (ts : List Trade) (t : Trade) :
    hasBuy sym (ts ++ [t]) =
      (hasBuy sym ts || (t.side == OrderSide.buy && t.symbol == sym)) := by
  simp [hasBuy, List.any_append]

theorem buyQtySum_append_buy {sym : String} {ts : List Trade} {t : Trade}
    (ht : (t.side == OrderSide.buy && t.symbol == sym) = true) :
    buyQtySum sym (ts ++ [t]) = buyQtySum sym ts + t.quantity := by
  simp [buyQtySum, List.filter_append, ht]

theorem buyQtySum_append_other {sym : String} {ts : List Trade} {t : Trade}
    (ht : (t.side == OrderSide.buy && t.symbol == sym) = false) :
    buyQtySum sym (ts ++ [t]) = buyQtySum sym ts := by
  simp [buyQtySum, List.filter_append, ht]

theorem buyPQSum_append_buy {sym : String} {ts : List Trade} {t : Trade}
    (ht : (t.side == OrderSide.buy && t.symbol == sym) = true) :
    buyPQSum sym (ts ++ [t]) = buyPQSum sym ts + t.price * t.quantity := by
  simp [buyPQSum, List.filter_append, ht]

theorem buyPQSum_append_other {sym : String} {ts : List Trade} {t : Trade}
    (ht : (t.side == OrderSide.buy && t.symbol == sym) = false) :
    buyPQSum sym (ts ++ [t]) = buyPQSum sym ts := by
  simp [buyPQSum, List.filter_append, ht]

theorem no_buy_sums_zero {sym : String} {ts : List Trade}
    (h : hasBuy sym ts = false) : buyQtySum sym ts = 0 ∧ buyPQSum sym ts = 0 := by
  have hnil : ts.filter (fun t => t.side == OrderSide.buy && t.symbol == sym) = [] := by
    rw [List.filter_eq_nil]
    intro t ht
    have := List.any_eq_false.mp h t ht
    simpa using this
  simp [buyQtySum, buyPQSum, hnil]

theorem buyQtySum_pos {sym : String} {ts : List Trade}
    (hb : hasBuy sym ts = true)
    (hq : ∀ t ∈ ts, t.side = OrderSide.buy → 0 < t.quantity) :
    0 < buyQtySum sym ts := by
  rcases List.any_eq_true.mp hb with ⟨t0, ht0, hp0⟩
  refine List.sum_pos _ ?_ ?_
  · intro x hx
    rcases List.mem_map.mp hx with ⟨t, htf, hxt⟩
    have htmem := List.mem_of_mem_filter htf
    have hpred := List.of_mem_filter htf
    have hside : t.side = OrderSide.buy := by
      have := (Bool.and_eq_true _ _).mp hpred
      exact beq_iff_eq.mp this.1
    rw [← hxt]
    exact hq t htmem hside
  · intro hnil
    have : t0 ∈ ts.filter (fun t => t.side == OrderSide.buy && t.symbol == sym) :=
      List.mem_filter.mpr ⟨ht0, hp0⟩
    rw [show ts.filter (fun t => t.side == OrderSide.buy && t.symbol == sym) = [] from
      List.map_eq_nil.mp hnil] at this
    simp at this

theorem findPM_single (sym : String) (x : ℚ × ℚ) :
    findPM [(sym, x)] sym = some x := by
  simp [findPM]

theorem setPM_single (sym : String) (x v : ℚ × ℚ) :
    setPM [(sym, x)] sym v = [(sym, v)] := by
  simp [setPM, findPM]

theorem setPM_nil (sym : String) (v : ℚ × ℚ) :
    setPM [] sym v = [(sym, v)] := by
  simp [setPM, findPM]

/-- The prefix-carrying classifier distributes over its accumulators. -/
theorem cumClassifyGo_acc (sym : String) (rest : List Trade) :
    ∀ (done p l : List Trade),
      cumClassifyGo sym done p l rest =
        (p ++ (cumClassifyGo sym done [] [] rest).1,
         l ++ (cumClassifyGo sym done [] [] rest).2) := by
  induction rest with
  | nil =>
    intro done p l
    simp [cumClassifyGo]
  | cons t rest ih =>
    intro done p l
    cases ht : t.side with
    | buy =>
      simp only [cumClassifyGo, ht]
      exact ih (done ++ [t]) p l
    | sell =>
      simp only [cumClassifyGo, ht]
      by_cases hb : hasBuy sym done = true
      · simp only [hb, if_true]
        by_cases hw : t.price > buyWavg sym done
        · simp only [hw, if_pos]
          rw [ih (done ++ [t]) (p ++ [t]) l, ih (done ++ [t]) ([] ++ [t]) []]
          simp
        · simp only [hw, if_neg, not_false_iff]
          rw [ih (done ++ [t]) p (l ++ [t]), ih (done ++ [t]) [] ([] ++ [t])]
          simp
      · simp only [Bool.not_eq_true] at hb
        simp only [hb, Bool.false_eq_true, if_false]
        exact ih (done ++ [t]) p l

/-- The incremental scanner of analyze_trades agrees, on a single-symbol
trade list with positive buy quantities, with the classifier that compares
each sell to the closed-form weighted average of all preceding buys. -/
theorem analyze_foldl_cum (sym : String) (rest : List Trade) :
    ∀ (done profit loss : List Trade),
      (∀ t ∈ rest, t.symbol = sym) →
      (∀ t ∈ rest, t.side = OrderSide.buy → 0 < t.quantity) →
      (∀ t ∈ done, t.side = OrderSide.buy → 0 < t.quantity) →
      rest.foldl MetricsCalculator.analyzeStep
        { profit := profit, loss := loss,
          position_map :=
            if hasBuy sym done then
              [(sym, (buyQtySum sym done, buyWavg sym done))]
            else [] } =
      { profit := profit ++ (cumClassifyGo sym done [] [] rest).1,
        loss := loss ++ (cumClassifyGo sym done [] [] rest).2,
        position_map :=
          if hasBuy sym (done ++ rest) then
            [(sym, (buyQtySum sym (done ++ rest), buyWavg sym (done ++ rest)))]
          else [] } := by
  induction rest with
  | nil =>
    intro done profit loss _ _ _
    simp [cumClassifyGo]
  | cons t rest ih =>
    intro done profit loss hsym hq hdq
    have htsym : t.symbol = sym := hsym t (List.mem_cons_self _ _)
    have hsym' : ∀ x ∈ rest, x.symbol = sym :=
      fun x hx => hsym x (List.mem_cons_of_mem _ hx)
    have hq' : ∀ x ∈ rest, x.side = OrderSide.buy → 0 < x.quantity :=
      fun x hx => hq x (List.mem_cons_of_mem _ hx)
    have hdq' : ∀ x ∈ done ++ [t], x.side = OrderSide.buy → 0 < x.quantity := by
      intro x hx
      rcases List.mem_append.mp hx with h₁ | h₁
      · exact hdq x h₁
      · simp only [List.mem_singleton] at h₁
        rw [h₁]
        exact hq t (List.mem_cons_self _ _)
    have happ : done ++ t :: rest = (done ++ [t]) ++ rest := by
      simp
    rw [List.foldl_cons]
    cases ht : t.side with
    | buy =>
      have hpred : (t.side == OrderSide.buy && t.symbol == sym) = true := by
        simp [ht, htsym]
      by_cases hb : hasBuy sym done = true
      · have hQpos := buyQtySum_pos hb hdq
        have hstep :
            MetricsCalculator.analyzeStep
              { profit := profit, loss := loss,
                position_map :=
                  if hasBuy sym done then
                    [(sym, (buyQtySum sym done, buyWavg sym done))]
                  else [] } t =
            { profit := profit, loss := loss,
              position_map :=
                if hasBuy sym (done ++ [t]) then
                  [(sym, (buyQtySum sym (done ++ [t]), buyWavg sym (done ++ [t])))]
                else [] } := by
          simp only [MetricsCalculator.analyzeStep, ht, hb, if_true, htsym,
            findPM_single, Option.getD_some, setPM_single]
          have hbt : hasBuy sym (done ++ [t]) = true := by
            rw [hasBuy_append, hb]
            simp
          rw [hbt, if_pos rfl, buyQtySum_append_buy hpred]
          have havg :
              (buyWavg sym done * buyQtySum sym done + t.price * t.quantity) /
                (buyQtySum sym done + t.quantity) = buyWavg sym (done ++ [t]) := by
            unfold buyWavg
            rw [buyPQSum_append_buy hpred, buyQtySum_append_buy hpred,
              div_mul_cancel₀ _ (ne_of_gt hQpos)]
          rw [havg]
        rw [hstep, ih (done ++ [t]) profit loss hsym' hq' hdq']
        simp only [cumClassifyGo, ht]
        rw [happ]
      · simp only [Bool.not_eq_true] at hb
        have h0 := no_buy_sums_zero hb
        have hstep :
            MetricsCalculator.analyzeStep
              { profit := profit, loss := loss,
                position_map :=
                  if hasBuy sym done then
                    [(sym, (buyQtySum sym done, buyWavg sym done))]
                  else [] } t =
            { profit := profit, loss := loss,
              position_map :=
                if hasBuy sym (done ++ [t]) then
                  [(sym, (buyQtySum sym (done ++ [t]), buyWavg sym (done ++ [t])))]
                else [] } := by
          simp only [MetricsCalculator.analyzeStep, ht, hb, Bool.false_eq_true, if_false,
            htsym, findPM, Option.getD_none, setPM_nil]
          have hbt : hasBuy sym (done ++ [t]) = true := by
            rw [hasBuy_append, hb, Bool.false_or]
            exact hpred
          rw [hbt, if_pos rfl, buyQtySum_append_buy hpred, h0.1]
          have havg :
              ((0 : ℚ) * 0 + t.price * t.quantity) / (0 + t.quantity) =
                buyWavg sym (done ++ [t]) := by
            unfold buyWavg
            rw [buyPQSum_append_buy hpred, buyQtySum_append_buy hpred, h0.1, h0.2]
            norm_num
          rw [havg]
        rw [hstep, ih (done ++ [t]) profit loss hsym' hq' hdq']
        simp only [cumClassifyGo, ht]
        rw [happ]
    | sell =>
      have hpred : (t.side == OrderSide.buy && t.symbol == sym) = false := by
        simp [ht]
      have hmapkeep : hasBuy sym (done ++ [t]) = hasBuy sym done := by
        rw [hasBuy_append, hpred]
        simp
      by_cases hb : hasBuy sym done = true
      · by_cases hw : t.price > buyWavg sym done
        · have hstep :
              MetricsCalculator.analyzeStep
                { profit := profit, loss := loss,
                  position_map :=
                    if hasBuy sym done then
                      [(sym, (buyQtySum sym done, buyWavg sym done))]
                    else [] } t =
              { profit := profit ++ [t], loss := loss,
                position_map :=
                  if hasBuy sym (done ++ [t]) then
                    [(sym, (buyQtySum sym (done ++ [t]), buyWavg sym (done ++ [t])))]
                  else [] } := by
            simp only [MetricsCalculator.analyzeStep, ht, hb, if_true, htsym,
              findPM_single]
            rw [if_pos hw, hmapkeep, hb, if_pos rfl,
              buyQtySum_append_other hpred]
            unfold buyWavg
            rw [buyQtySum_append_other hpred, buyPQSum_append_other hpred]
          rw [hstep, ih (done ++ [t]) (profit ++ [t]) loss hsym' hq' hdq']
          simp only [cumClassifyGo, ht, hb, if_true, hw, if_pos]
          rw [cumClassifyGo_acc sym rest (done ++ [t]) ([] ++ [t]) [], happ]
          simp
        · have hstep :
              MetricsCalculator.analyzeStep
                { profit := profit, loss := loss,
                  position_map :=
                    if hasBuy sym done then
                      [(sym, (buyQtySum sym done, buyWavg sym done))]
                    else [] } t =
              { profit := profit, loss := loss ++ [t],
                position_map :=
                  if hasBuy sym (done ++ [t]) then
                    [(sym, (buyQtySum sym (done ++ [t]), buyWavg sym (done ++ [t])))]
                  else [] } := by
            simp only [MetricsCalculator.analyzeStep, ht, hb, if_true, htsym,
              findPM_single]
            rw [if_neg hw, hmapkeep, hb, if_pos rfl,
              buyQtySum_append_other hpred]
            unfold buyWavg
            rw [buyQtySum_append_other hpred, buyPQSum_append_other hpred]
          rw [hstep, ih (done ++ [t]) profit (loss ++ [t]) hsym' hq' hdq']
          simp only [cumClassifyGo, ht, hb, if_true, hw, if_neg, not_false_iff]
          rw [cumClassifyGo_acc sym rest (done ++ [t]) [] ([] ++ [t]), happ]
          simp
      · simp only [Bool.not_eq_true] at hb
        have hstep :
            MetricsCalculator.analyzeStep
              { profit := profit, loss := loss,
                position_map :=
                  if hasBuy sym done then
                    [(sym, (buyQtySum sym done, buyWavg sym done))]
                  else [] } t =
            { profit := profit, loss := loss,
              position_map :=
                if hasBuy sym (done ++ [t]) then
                  [(sym, (buyQtySum sym (done ++ [t]), buyWavg sym (done ++ [t])))]
                else [] } := by
          simp only [MetricsCalculator.analyzeStep, ht, hb, Bool.false_eq_true, if_false,
            htsym, findPM]
          rw [hmapkeep, hb]
          simp
        rw [hstep, ih (done ++ [t]) profit loss hsym' hq' hdq']
        simp only [cumClassifyGo, ht, hb, Bool.false_eq_true, if_false]
        rw [happ]

/-- C6 counterexample: on buy one at 100, sell one at 110 (closing the
position), buy one at 300, sell one at 250, the scanner classifies the
final sell as winning (price 250 against its never-decremented cumulative
average 200), while the weighted average the position holds at the moment
of that sale — obtained by replaying all preceding trades, buys and sells
alike — is 300, making the sell losing under the claimed definition. -/
theorem C6_classification_counterexample :
    MetricsCalculator.analyze_trades cxTrades = ([cxSell110, cxSell250], []) ∧
    specClassify cxTrades = ([cxSell110], [cxSell250]) ∧
    MetricsCalculator.analyze_trades cxTrades ≠ specClassify cxTrades := by
  refine ⟨?_, ?_, ?_⟩
  · norm_num [MetricsCalculator.analyze_trades, MetricsCalculator.analyzeStep,
      findPM, setPM, cxTrades, cxBuy100, cxSell110, cxBuy300, cxSell250]
  · norm_num [specClassify, specClassifyGo, specPosStep, findPM, setPM, removePM,
      cxTrades, cxBuy100, cxSell110, cxBuy300, cxSell250]
  · intro h
    have h1 : MetricsCalculator.analyze_trades cxTrades = ([cxSell110, cxSell250], []) := by
      norm_num [MetricsCalculator.analyze_trades, MetricsCalculator.analyzeStep,
        findPM, setPM, cxTrades, cxBuy100, cxSell110, cxBuy300, cxSell250]
    have h2 : specClassify cxTrades = ([cxSell110], [cxSell250]) := by
      norm_num [specClassify, specClassifyGo, specPosStep, findPM, setPM, removePM,
        cxTrades, cxBuy100, cxSell110, cxBuy300, cxSell250]
    rw [h1, h2] at h
    simp at h

/-- C6 amended: scanning a single-symbol trade list in order (positive buy
quantities), the Metrics Calculator classifies a Sell trade as winning
exactly when its fill price exceeds the quantity-weighted average price of
all preceding Buy trades — the tracked position is never reduced by sells,
so the average is over every buy seen so far, not the average the position
holds at that moment — and as losing otherwise; a Sell before any Buy is
left unclassified, and Buy trades are never classified. -/
theorem C6_classification_amended (sym : String) (ts : List Trade)
    (hsym : ∀ t ∈ ts, t.symbol = sym)
    (hq : ∀ t ∈ ts, t.side = OrderSide.buy → 0 < t.quantity) :
    MetricsCalculator.analyze_trades ts = cumClassify sym ts := by
  unfold MetricsCalculator.analyze_trades cumClassify
  have h := analyze_foldl_cum sym ts [] [] [] hsym hq (by simp)
  have hinit : (if hasBuy sym [] then
      [(sym, (buyQtySum sym [], buyWavg sym []))] else ([] : List (String × (ℚ × ℚ)))) = [] := by
    simp [hasBuy]
  rw [hinit] at h
  rw [h]
  simp

/-- C6 witness: the concrete counterexample list is single-symbol with
positive buy quantities, and on it the scanner agrees with the
cumulative-buy-average classifier. -/
theorem C6_classification_amended_witness :
    MetricsCalculator.analyze_trades cxTrades = cumClassify "X" cxTrades :=
  C6_classification_amended "X" cxTrades
    (by decide) (by decide)

/-! Lemmas relating the drawdown fold to the prefix-peak formulation. -/

theorem peakValue_append (pts : List EquityPoint) (pt : EquityPoint) :
    peakValue (pts ++ [pt]) = max (peakValue pts) pt.value := by
  simp [peakValue, List.foldl_append]

theorem prefixPeak_append_lt {pts : List EquityPoint} {pt : EquityPoint} {i : Nat}
    (h : i < pts.length) : prefixPeak (pts ++ [pt]) i = prefixPeak pts i := by
  unfold prefixPeak
  rw [List.take_append_of_le_length h]

theorem prefixPeak_append_last (pts : List EquityPoint) (pt : EquityPoint) :
    prefixPeak (pts ++ [pt]) pts.length = peakValue (pts ++ [pt]) := by
  unfold prefixPeak peakValue
  rw [show pts.length + 1 = (pts ++ [pt]).length by simp, List.take_length]

theorem specMaxDD_append (pts : List EquityPoint) (pt : EquityPoint) :
    specMaxDD (pts ++ [pt]) =
      max (specMaxDD pts)
        ((peakValue (pts ++ [pt]) - pt.value) / peakValue (pts ++ [pt])) := by
  unfold specMaxDD
  have hlen : (pts ++ [pt]).length = pts.length + 1 := by simp
  rw [hlen, List.range_succ, List.map_append, List.foldl_append]
  have hmap :
      (List.range pts.length).map
        (fun i => (prefixPeak (pts ++ [pt]) i -
          ((pts ++ [pt]).getD i { timestamp := 0, value := 0 }).value)
            / prefixPeak (pts ++ [pt]) i) =
      (List.range pts.length).map
        (fun i => (prefixPeak pts i -
          (pts.getD i { timestamp := 0, value := 0 }).value) / prefixPeak pts i) := by
    refine List.map_congr_left ?_
    intro i hi
    have hi' : i < pts.length := List.mem_range.mp hi
    rw [prefixPeak_append_lt hi']
    have hgd : (pts ++ [pt]).getD i { timestamp := 0, value := 0 } =
        pts.getD i { timestamp := 0, value := 0 } := by
      simp [List.getD, List.getElem?_append, hi']
    rw [hgd]
  rw [hmap]
  simp only [List.map_cons, List.map_nil, List.foldl_cons, List.foldl_nil]
  rw [prefixPeak_append_last]
  have hgd2 : (pts ++ [pt]).getD pts.length { timestamp := 0, value := 0 } = pt := by
    simp [List.getD, List.getElem?_append]
  rw [hgd2]

/-- The drawdown fold computes the running peak and the prefix-peak maximum
drawdown fraction, for a curve of positive values. -/
theorem drawdown_foldl_spec (now : Int) (pts : List EquityPoint)
    (hpos : ∀ p ∈ pts, 0 < p.value) :
    (pts.foldl MetricsCalculator.drawdownStep
      { max_drawdown := 0, max_drawdown_duration := 0, peak_value := 0,
        peak_time := now }).peak_value = peakValue pts ∧
    (pts.foldl MetricsCalculator.drawdownStep
      { max_drawdown := 0, max_drawdown_duration := 0, peak_value := 0,
        peak_time := now }).max_drawdown = specMaxDD pts ∧
    0 ≤ (pts.foldl MetricsCalculator.drawdownStep
      { max_drawdown := 0, max_drawdown_duration := 0, peak_value := 0,
        peak_time := now }).max_drawdown := by
  induction pts using List.reverseRecOn with
  | nil => simp [peakValue, specMaxDD]
  | append_singleton l a ih =>
    have hl : ∀ p ∈ l, 0 < p.value := fun p hp => hpos p (List.mem_append_left _ hp)
    have ha : 0 < a.value := hpos a (by simp)
    obtain ⟨hpk, hdd, hnn⟩ := ih hl
    rw [List.foldl_append, List.foldl_cons, List.foldl_nil]
    set st := l.foldl MetricsCalculator.drawdownStep
      { max_drawdown := 0, max_drawdown_duration := 0, peak_value := 0,
        peak_time := now } with hst
    unfold MetricsCalculator.drawdownStep
    by_cases h1 : a.value > st.peak_value
    · simp only [h1, if_true]
      have hmax : peakValue (l ++ [a]) = a.value := by
        rw [peakValue_append]
        exact max_eq_right (le_of_lt (hpk ▸ h1))
      refine ⟨hmax.symm ▸ rfl, ?_, by simpa using hnn⟩
      rw [specMaxDD_append, hmax]
      simp only [sub_self, zero_div]
      rw [max_eq_left (hdd ▸ hnn)]
      simpa using hdd
    · simp only [h1, if_false]
      have hle : a.value ≤ peakValue l := by
        rw [← hpk]
        exact not_lt.mp h1
      have hpkpos : (0 : ℚ) < peakValue l := lt_of_lt_of_le ha hle
      have hc : st.peak_value > 0 := by
        rw [hpk]
        exact hpkpos
      simp only [hc, if_true]
      have hmax : peakValue (l ++ [a]) = peakValue l := by
        rw [peakValue_append]
        exact max_eq_left hle
      have hddval : specMaxDD (l ++ [a]) =
          max (specMaxDD l) ((peakValue l - a.value) / peakValue l) := by
        rw [specMaxDD_append, hmax]
      by_cases h2 : (st.peak_value - a.value) / st.peak_value > st.max_drawdown
      · simp only [h2, if_true]
        refine ⟨by simpa using hpk.symm ▸ hmax.symm, ?_, ?_⟩
        · rw [hddval]
          rw [hpk, hdd] at h2
          rw [max_eq_right (le_of_lt h2)]
          simp [hpk]
        · rw [hpk, hdd] at h2
          simpa [hpk] using le_of_lt (lt_of_le_of_lt (hdd ▸ hnn) h2)
      · simp only [h2, if_false]
        refine ⟨by simpa using hmax.symm ▸ hpk, ?_, hnn⟩
        rw [hddval]
        rw [hpk, hdd] at h2
        rw [max_eq_left (not_lt.mp h2)]
        exact hdd

/-- C7 counterexample: the curve 1000, 1200, 900, 1100 yields a reported
max_drawdown of one quarter — the drawdown fraction — not 25, because the
code never multiplies by 100. -/
theorem C7_drawdown_counterexample :
    (MetricsCalculator.calculate_drawdown 0 ddCurve).1 = 1/4 ∧
    (MetricsCalculator.calculate_drawdown 0 ddCurve).1 ≠ 25 := by
  have h : (MetricsCalculator.calculate_drawdown 0 ddCurve).1 = 1/4 := by
    norm_num [MetricsCalculator.calculate_drawdown, MetricsCalculator.drawdownStep,
      ddCurve]
  refine ⟨h, ?_⟩
  rw [h]
  norm_num

/-- C7 amended: the reported max_drawdown is the maximum over the curve's
points of the drawdown fraction (running peak minus value, over the running
peak) — not multiplied by 100 — together with the duration between the peak
and the point where that maximum was recorded; the curve 1000, 1200, 900,
1100 yields the pair (one quarter, 1). -/
theorem C7_drawdown_amended (now : Int) (pts : List EquityPoint)
    (hpos : ∀ p ∈ pts, 0 < p.value) :
    (MetricsCalculator.calculate_drawdown now pts).1 = specMaxDD pts ∧
    MetricsCalculator.calculate_drawdown 0 ddCurve = (1/4, 1) := by
  constructor
  · unfold MetricsCalculator.calculate_drawdown
    exact (drawdown_foldl_spec now pts hpos).2.1
  · norm_num [MetricsCalculator.calculate_drawdown, MetricsCalculator.drawdownStep,
      ddCurve]

/-- C7 witness: on the concrete curve the fold agrees with the prefix-peak
maximum. -/
theorem C7_drawdown_amended_witness :
    (MetricsCalculator.calculate_drawdown 0 ddCurve).1 = specMaxDD ddCurve :=
  (C7_drawdown_amended 0 ddCurve (by norm_num [ddCurve])).1

/-- C8 counterexample: on the return series 2, 0 the code's Sharpe ratio is
strictly smaller than the claimed formula, because the code's denominator
carries the raw sum of squared deviations (here 2) under the square root
where the claimed standard deviation is 1. -/
theorem C8_sharpe_counterexample :
    MetricsCalculator.calculate_sharpe_ratio (1/50) [2, 0] ≠ sharpeSpec (1/50) [2, 0] := by
  have hL : MetricsCalculator.calculate_sharpe_ratio (1/50) [2, 0] =
      (252 - 1/50) / (Real.sqrt 2 * Real.sqrt 252) := by
    unfold MetricsCalculator.calculate_sharpe_ratio
    rw [if_neg (by simp : ¬([2, 0] : List ℝ) = [])]
    norm_num
  have hR : sharpeSpec (1/50) [2, 0] = (252 - 1/50) / Real.sqrt 252 := by
    unfold sharpeSpec stdevSpec
    rw [if_neg (by simp : ¬([2, 0] : List ℝ) = [])]
    norm_num
  rw [hL, hR]
  have hs252 : (0 : ℝ) < Real.sqrt 252 := Real.sqrt_pos.mpr (by norm_num)
  have hs2gt : (1 : ℝ) < Real.sqrt 2 := by
    have hsq := Real.sqrt_lt_sqrt (by norm_num : (0:ℝ) ≤ 1) (by norm_num : (1:ℝ) < 2)
    rwa [Real.sqrt_one] at hsq
  have hA : (0 : ℝ) < 252 - 1/50 := by norm_num
  have hlt : (252 - 1/50) / (Real.sqrt 2 * Real.sqrt 252) <
      (252 - 1/50) / Real.sqrt 252 := by
    refine div_lt_div_of_pos_left hA hs252 ?_
    calc Real.sqrt 252 = 1 * Real.sqrt 252 := (one_mul _).symm
    _ < Real.sqrt 2 * Real.sqrt 252 := mul_lt_mul_of_pos_right hs2gt hs252
  exact ne_of_lt hlt

/-- C8 amended: for a nonempty return series the reported sharpe_ratio
equals (mean(returns) × 252 − risk_free_rate) divided by (stdev(returns) ×
sqrt(n) × sqrt(252)) where n is the number of returns — the code omits the
division by n inside the square root, leaving an extra factor sqrt(n)
against the claimed formula — and it is 0 when the series is empty or its
volatility is zero. -/
theorem C8_sharpe_amended (rf : ℝ) (rs : List ℝ) (h : rs ≠ []) :
    MetricsCalculator.calculate_sharpe_ratio rf rs =
      (if stdevSpec rs = 0 then 0
       else (rs.sum / rs.length * 252 - rf) /
         (stdevSpec rs * Real.sqrt rs.length * Real.sqrt 252)) ∧
    MetricsCalculator.calculate_sharpe_ratio rf [] = 0 := by
  constructor
  · have hn : (0 : ℝ) < rs.length := by
      have hlen : 0 < rs.length := List.length_pos.mpr h
      exact_mod_cast hlen
    have hS : (0 : ℝ) ≤ (rs.map (fun r => (r - rs.sum / rs.length) ^ 2)).sum := by
      refine List.sum_nonneg ?_
      intro x hx
      rcases List.mem_map.mp hx with ⟨r, _, hr⟩
      rw [← hr]
      positivity
    have hkey : Real.sqrt ((rs.map (fun r => (r - rs.sum / rs.length) ^ 2)).sum) =
        stdevSpec rs * Real.sqrt rs.length := by
      unfold stdevSpec
      rw [← Real.sqrt_mul (div_nonneg hS hn.le) (rs.length : ℝ),
        div_mul_cancel₀ _ (ne_of_gt hn)]
    unfold MetricsCalculator.calculate_sharpe_ratio
    rw [if_neg h]
    simp only
    rw [hkey]
    by_cases hz : stdevSpec rs = 0
    · rw [hz]
      simp
    · rw [if_neg hz, if_neg ?hvol]
      case hvol =>
        have h252 : Real.sqrt 252 ≠ 0 := by positivity
        have hsn : Real.sqrt rs.length ≠ 0 := by positivity
        exact mul_ne_zero (mul_ne_zero hz hsn) h252
  · simp [MetricsCalculator.calculate_sharpe_ratio]

/-- C8 witness: the amended formula instantiated on the concrete series
2, 0. -/
theorem C8_sharpe_amended_witness :
    MetricsCalculator.calculate_sharpe_ratio (1/50) [2, 0] =
      (if stdevSpec [2, 0] = 0 then 0
       else (([2, 0] : List ℝ).sum / (([2, 0] : List ℝ).length : ℝ) * 252 - 1/50) /
         (stdevSpec [2, 0] * Real.sqrt (([2, 0] : List ℝ).length : ℝ) * Real.sqrt 252)) :=
  (C8_sharpe_amended (1/50) [2, 0] (by simp)).1

/-- C9: the moving-average-crossover strategy emits orders only on a signal
change relative to the previous tick's signal: before the short window
fills nothing is emitted; with the averages available and the signal equal
to the remembered one nothing is emitted; a transition to short-above-long
while the symbol is not held emits exactly one market Buy sized
position_size over the converted tick price (zero if that price is not
positive); a transition to short-not-above-long while the symbol is held
emits exactly one market Sell of the entire held quantity. -/
theorem C9_sma_cross_edge_triggered (st : SmaCross.SmaState) (d : MarketDataPoint)
    (pf : Portfolio) :
    (st.short_ma.length + 1 < st.short_period →
      (SmaCross.on_data st d pf).1 = []) ∧
    (∀ sma lma st2, SmaCross.calculate_ma st d.priceF = (some (sma, lma), st2) →
      (st.last_signal = some (decide (lma < sma)) →
        (SmaCross.on_data st d pf).1 = []) ∧
      (lma < sma → st.last_signal ≠ some true →
        findPos pf.positions st.symbol = none → ∀ p, d.priceDec = some p →
        (SmaCross.on_data st d pf).1 =
          [{ symbol := st.symbol, order_type := OrderType.market,
             side := OrderSide.buy,
             quantity := if 0 < p then st.position_size / p else 0,
             timestamp := d.timestamp }]) ∧
      (¬(lma < sma) → st.last_signal ≠ some false →
        ∀ pos, findPos pf.positions st.symbol = some pos →
        (SmaCross.on_data st d pf).1 =
          [{ symbol := st.symbol, order_type := OrderType.market,
             side := OrderSide.sell, quantity := pos.quantity,
             timestamp := d.timestamp }])) := by
  constructor
  · intro hlen
    unfold SmaCross.on_data
    cases hcm : SmaCross.calculate_ma st d.priceF with
    | mk o1 st2 =>
      cases o1 with
      | none => rfl
      | some ma =>
        exfalso
        unfold SmaCross.calculate_ma at hcm
        have h1 : ¬ st.short_period < st.short_ma.length + 1 := by omega
        have h2 : ¬ st.short_ma.length + 1 = st.short_period := by omega
        simp [h1, h2] at hcm
  · intro sma lma st2 hma
    unfold SmaCross.on_data
    rw [hma]
    refine ⟨?_, ?_, ?_⟩
    · intro hlast
      rw [hlast]
      simp
    · intro hlt hne hnopos p hp
      have hsig : decide (lma < sma) = true := decide_eq_true hlt
      have hch : (match st.last_signal with
          | none => true
          | some last => !last) = true := by
        cases hl : st.last_signal with
        | none => rfl
        | some last =>
          cases last with
          | true => exact absurd hl hne
          | false => rfl
      simp [hsig, hch, hnopos, hp]
    · intro hlt hne pos hpos
      have hsig : decide (lma < sma) = false := decide_eq_false hlt
      have hch : (match st.last_signal with
          | none => true
          | some last => last) = true := by
        cases hl : st.last_signal with
        | none => rfl
        | some last =>
          cases last with
          | false => exact absurd hl hne
          | true => rfl
      simp [hsig, hch, hpos]

/-- C9 witness: with short period one and long period two, remembered
history price 100 and a tick at 104, the strategy emits exactly one Buy of
1000 over 104. -/
theorem C9_sma_cross_edge_triggered_witness :
    (SmaCross.on_data smaStX tickX104 pfStart).1 =
      [{ symbol := smaStX.symbol, order_type := OrderType.market,
         side := OrderSide.buy,
         quantity := if (0 : ℚ) < 104 then smaStX.position_size / 104 else 0,
         timestamp := tickX104.timestamp }] :=
  ((C9_sma_cross_edge_triggered smaStX tickX104 pfStart).2 104 102
    { smaStX with short_ma := [104], long_ma := [100, 104] }
    (by norm_num [SmaCross.calculate_ma, smaStX, tickX104])).2.1
    (by norm_num) (by simp [smaStX]) (by simp [pfStart, findPos]) 104 rfl

/-- C10: a Buy order of quantity exactly zero on a symbol with no held
position passes the cash check whenever cash is nonnegative (its cost is
zero) and drives the divisor of the weighted-average entry-price update —
the new total quantity — to zero, where rust_decimal division panics, so
execute_order is not total; conversely, when every order quantity is
positive and held quantities are nonnegative, that divisor is never
zero. -/
theorem C10_zero_quantity_division (rate : ℚ) (o : Order) (d : MarketDataPoint)
    (pf : Portfolio) (p : ℚ) :
    (o.side = OrderSide.buy → o.quantity = 0 →
      findPos pf.positions o.symbol = none →
      d.priceDec = some p → 0 ≤ pf.cash →
      BacktestEngine.buyCashCheck rate o p pf = true ∧
      BacktestEngine.buyNewQuantity o pf = 0) ∧
    (0 < o.quantity → (∀ kv ∈ pf.positions, 0 ≤ kv.2.quantity) →
      BacktestEngine.buyNewQuantity o pf ≠ 0) := by
  constructor
  · intro _ hq hf _ hc
    constructor
    · unfold BacktestEngine.buyCashCheck
      rw [hq]
      simp only [zero_mul, mul_zero, add_zero]
      exact decide_eq_true hc
    · unfold BacktestEngine.buyNewQuantity
      rw [hf, hq]
      simp
  · intro hq hpos
    unfold BacktestEngine.buyNewQuantity
    cases hf : findPos pf.positions o.symbol with
    | none => simpa using ne_of_gt hq
    | some pos =>
      have h0 := hpos (o.symbol, pos) (findPos_mem hf)
      simp only [Option.getD_some]
      have : (0 : ℚ) < pos.quantity + o.quantity := by
        dsimp only at h0
        linarith
      exact ne_of_gt this

/-- C10 witness: the concrete zero-quantity buy on an empty portfolio
passes the cash check and makes the update divisor zero. -/
theorem C10_zero_quantity_division_witness :
    BacktestEngine.buyCashCheck 0 buyX0 100 pfStart = true ∧
    BacktestEngine.buyNewQuantity buyX0 pfStart = 0 :=
  (C10_zero_quantity_division 0 buyX0 tickX100 pfStart 100).1 rfl rfl rfl rfl
    (by norm_num [pfStart])

end RustTrade
